import Mathlib

/-!
Verification development for the volume renderer in
`src/VolVis_Project_Framework/src/render/renderer.cpp`.

The embedding is shallow: GLSL-style float vectors become records of
rationals, the external collaborators (scalar volume, gradient volume,
camera) become function-valued fields of an environment record, and each
tracer's marching loop becomes a structural recursion / fold over the list
of sample indices `0, 1, ..., N-1` with `t_k = tmin + k*step`
(front-to-back) or `t_k = tmax - k*step` (back-to-front).  In exact
arithmetic the incremental `samplePos += increment` of the C++ equals
`origin + t_k * direction`, which is how positions are written here.

`computePhongShading` normalizes vectors and raises a cosine to a power,
operations that need square roots and are not rational-valued; it is kept
as an uninterpreted function field `phong` of the environment, and every
theorem about the shading-enabled paths holds for an arbitrary such
function.  Division by zero in ℚ yields 0 (the C++ relies on IEEE
infinities instead), so theorems about the slab intersection carry
nonzero-direction hypotheses that scope them to where the rational model
is faithful.
-/

/-- Rational stand-in for glm::vec3. -/
structure Vec3 where
  x : ℚ
  y : ℚ
  z : ℚ
deriving DecidableEq, Repr

/-- Rational stand-in for glm::vec4 (RGBA). -/
structure Vec4 where
  r : ℚ
  g : ℚ
  b : ℚ
  a : ℚ
deriving DecidableEq, Repr

instance : Add Vec3 := ⟨fun u v => ⟨u.x + v.x, u.y + v.y, u.z + v.z⟩⟩

instance : Sub Vec3 := ⟨fun u v => ⟨u.x - v.x, u.y - v.y, u.z - v.z⟩⟩

instance : SMul ℚ Vec3 := ⟨fun c v => ⟨c * v.x, c * v.y, c * v.z⟩⟩

instance : Add Vec4 := ⟨fun u v => ⟨u.r + v.r, u.g + v.g, u.b + v.b, u.a + v.a⟩⟩

instance : SMul ℚ Vec4 := ⟨fun c v => ⟨c * v.r, c * v.g, c * v.b, c * v.a⟩⟩

/-- glm::vec3(0.0f). -/
def Vec3.zero : Vec3 := ⟨0, 0, 0⟩

/-- glm::vec4(0.0f): transparent black, the cleared framebuffer color. -/
def Vec4.zero : Vec4 := ⟨0, 0, 0, 0⟩

/-- glm::dot on vec3. -/
def Vec3.dot (u v : Vec3) : ℚ := u.x * v.x + u.y * v.y + u.z * v.z

/-- volume::GradientVoxel: a gradient direction and its magnitude. -/
structure GradientVoxel where
  dir : Vec3
  magnitude : ℚ
deriving DecidableEq, Repr

/-- render::Ray: origin, direction and the valid segment [tmin, tmax]. -/
structure Ray where
  origin : Vec3
  direction : Vec3
  tmin : ℚ
  tmax : ℚ
deriving DecidableEq, Repr

/-- render::Bounds: `lowerUpper[0]` is `lower`, `lowerUpper[1]` is `upper`. -/
structure Bounds where
  lower : Vec3
  upper : Vec3
deriving DecidableEq, Repr

/-- render::RenderMode: the five tracer variants. -/
inductive RenderMode where
  | renderSlicer
  | renderMIP
  | renderComposite
  | renderIso
  | renderTF2D
deriving DecidableEq, Repr

/-- render::RenderConfig, restricted to the fields renderer.cpp reads. -/
structure RenderConfig where
  renderResolutionX : ℕ
  renderResolutionY : ℕ
  renderMode : RenderMode
  isoValue : ℚ
  volumeShading : Bool
  tfColorMap : List Vec4
  tfColorMapIndexStart : ℚ
  tfColorMapIndexRange : ℚ
  TF2DColor : Vec4
  TF2DIntensity : ℚ
  TF2DRadius : ℚ

/-- Environment of a Renderer: the borrowed external collaborators
(volume, gradient volume, camera) as abstract functions, plus the config.
`phong` stands for `computePhongShading`, uninterpreted because the C++
version normalizes vectors (square roots) and is therefore not
rational-valued; `planeNormal` stands for the externally computed
`-normalize(camera->forward())` for the same reason. -/
structure Env where
  vol : Vec3 → ℚ
  volMax : ℚ
  volDims : Vec3
  grad : Vec3 → GradientVoxel
  gradMaxMag : ℚ
  camPos : Vec3
  planeNormal : Vec3
  phong : Vec3 → GradientVoxel → Vec3 → Vec3 → Vec3
  cfg : RenderConfig

/-- Number of iterations of `for (float t = tmin; t <= tmax; t += step)`
in exact arithmetic: `⌊(tmax - tmin)/step⌋ + 1` when the segment is
nonempty and the step positive, else 0. -/
def numSamples (tmin tmax step : ℚ) : ℕ :=
  if 0 < step ∧ tmin ≤ tmax then (Int.floor ((tmax - tmin) / step)).toNat + 1 else 0

/-- Volume sample along a ray: `m_pVolume->getSampleInterpolate(origin + t*dir)`. -/
def sampleAt (env : Env) (ray : Ray) (t : ℚ) : ℚ :=
  env.vol (ray.origin + t • ray.direction)

/-- Index computation of `Renderer::getTFValue`:
`min(static_cast&lt;size_t&gt;(range01 * size), size - 1)`.  The C++ cast
truncates non-negative floats toward zero, i.e. takes the floor; for
negative inputs (value below the domain start) the cast is undefined
behaviour in C++ and clamped to 0 here. -/
def getTFIndex (cfg : RenderConfig) (val : ℚ) : ℕ :=
  let range01 := (val - cfg.tfColorMapIndexStart) / cfg.tfColorMapIndexRange
  min (Int.toNat (Int.floor (range01 * (cfg.tfColorMap.length : ℚ)))) (cfg.tfColorMap.length - 1)

/-- Renderer::getTFValue: 1D transfer-function lookup. -/
def getTFValue (cfg : RenderConfig) (val : ℚ) : Vec4 :=
  cfg.tfColorMap.getD (getTFIndex cfg val) Vec4.zero

/-- Renderer::getTF2DOpacity: tent-shaped 2D transfer-function opacity.
Division in ℚ by zero yields 0; the interesting claims only evaluate the
division inside the guarded branch. -/
def getTF2DOpacity (env : Env) (intensity gradientMagnitude : ℚ) : ℚ :=
  let TFIntensity := env.cfg.TF2DIntensity
  let TFRadius := env.cfg.TF2DRadius
  let slope := env.gradMaxMag / TFRadius
  let input := |intensity - TFIntensity|
  if slope * input ≤ gradientMagnitude then
    let factor := input / (gradientMagnitude / slope)
    let interpVal := (1 - factor) + factor * 0
    env.cfg.TF2DColor.a * interpVal
  else
    0

/-- Loop body of `Renderer::bisectionAccuracy`.  Arguments: remaining
iterations, current bracket `[tLeft, tRight]`, and the most recently
computed midpoint (which the C++ returns when the iteration budget runs
out; before the first iteration it is `(t0 + t1)/2`, matching the
assignment preceding the loop). -/
def bisectLoop (env : Env) (ray : Ray) (isoValue : ℚ) : ℕ → ℚ → ℚ → ℚ → ℚ
  | 0, _, _, tLast => tLast
  | n + 1, tLeft, tRight, _ =>
    let t := (tLeft + tRight) / 2
    let val := sampleAt env ray t
    if |val - isoValue| < 1 / 100 then t
    else if isoValue < val then bisectLoop env ray isoValue n tLeft t t
    else bisectLoop env ray isoValue n t tRight t

/-- Renderer::bisectionAccuracy with `max_iter = 10`, `threshold = 0.01f`. -/
def bisectionAccuracy (env : Env) (ray : Ray) (t0 t1 isoValue : ℚ) : ℚ :=
  bisectLoop env ray isoValue 10 t0 t1 ((t0 + t1) / 2)

/-- Instrumented copy of `bisectLoop` that also reports the number of
midpoint evaluations performed and whether the `|val - iso| < 0.01`
convergence test succeeded. -/
def bisectLoopI (env : Env) (ray : Ray) (isoValue : ℚ) :
    ℕ → ℚ → ℚ → ℚ → ℚ × ℕ × Bool
  | 0, _, _, tLast => (tLast, 0, false)
  | n + 1, tLeft, tRight, _ =>
    let t := (tLeft + tRight) / 2
    let val := sampleAt env ray t
    if |val - isoValue| < 1 / 100 then (t, 1, true)
    else if isoValue < val then
      let rec1 := bisectLoopI env ray isoValue n tLeft t t
      (rec1.1, rec1.2.1 + 1, rec1.2.2)
    else
      let rec1 := bisectLoopI env ray isoValue n t tRight t
      (rec1.1, rec1.2.1 + 1, rec1.2.2)

/-- Fixed isosurface color `{0.8f, 0.8f, 0.2f}` of `traceRayISO`. -/
def isoColorConst : Vec3 := ⟨8 / 10, 8 / 10, 2 / 10⟩

/-- March of `Renderer::traceRayISO` over the remaining sample indices.
The bisection bracket is the hardcoded `(t - 1.0f, t)` of the source. -/
def isoLoop (env : Env) (ray : Ray) (step : ℚ) : List ℕ → Vec4
  | [] => ⟨0, 0, 0, 1⟩
  | k :: ks =>
    let t := ray.tmin + (k : ℚ) * step
    let val := sampleAt env ray t
    if env.cfg.isoValue ≤ val then
      if env.cfg.volumeShading = false then
        ⟨isoColorConst.x, isoColorConst.y, isoColorConst.z, 1⟩
      else
        let tNew := if val ≠ env.cfg.isoValue then bisectionAccuracy env ray (t - 1) t env.cfg.isoValue else t
        let samplePosT := ray.origin + tNew • ray.direction
        let sh := env.phong isoColorConst (env.grad samplePosT) env.camPos ray.direction
        ⟨sh.x, sh.y, sh.z, 1⟩
    else
      isoLoop env ray step ks

/-- Renderer::traceRayISO. -/
def traceRayISO (env : Env) (ray : Ray) (sampleStep : ℚ) : Vec4 :=
  isoLoop env ray sampleStep (List.range (numSamples ray.tmin ray.tmax sampleStep))

/-- Modelled from the words of claim C8: identical to `isoLoop` except
that the bisection bracket is `[t - sampleStep, t]` (the previous and
current step) instead of the source's hardcoded `[t - 1, t]`. -/
def isoLoopC8 (env : Env) (ray : Ray) (step : ℚ) : List ℕ → Vec4
  | [] => ⟨0, 0, 0, 1⟩
  | k :: ks =>
    let t := ray.tmin + (k : ℚ) * step
    let val := sampleAt env ray t
    if env.cfg.isoValue ≤ val then
      if env.cfg.volumeShading = false then
        ⟨isoColorConst.x, isoColorConst.y, isoColorConst.z, 1⟩
      else
        let tNew := if val ≠ env.cfg.isoValue then bisectionAccuracy env ray (t - step) t env.cfg.isoValue else t
        let samplePosT := ray.origin + tNew • ray.direction
        let sh := env.phong isoColorConst (env.grad samplePosT) env.camPos ray.direction
        ⟨sh.x, sh.y, sh.z, 1⟩
    else
      isoLoopC8 env ray step ks

/-- Claim-C8 variant of `traceRayISO` with bracket `[t - sampleStep, t]`. -/
def traceRayISOSpecBracket (env : Env) (ray : Ray) (sampleStep : ℚ) : Vec4 :=
  isoLoopC8 env ray sampleStep (List.range (numSamples ray.tmin ray.tmax sampleStep))

/-- One back-to-front compositing step of `Renderer::traceRayComposite`
at march parameter `t`: compute the 1D-TF color and opacity, build the
per-sample contribution `C_i` (Phong-weighted when shading is on and the
gradient nonzero; untouched `vec4(0)` when shading is on and the gradient
is zero; raw TF color weighted by opacity when shading is off), then
apply `C = C_i + (1 - A) * C`. -/
def compositeStep (env : Env) (ray : Ray) (t : ℚ) (C : Vec4) : Vec4 :=
  let samplePos := ray.origin + t • ray.direction
  let val := env.vol samplePos
  let TFval := getTFValue env.cfg val
  let color : Vec3 := ⟨TFval.r, TFval.g, TFval.b⟩
  let A := TFval.a
  let Ci : Vec4 :=
    if env.cfg.volumeShading then
      let gradient := env.grad samplePos
      if gradient.dir ≠ Vec3.zero then
        let shading := env.phong color gradient env.camPos ray.direction
        ⟨shading.x * A, shading.y * A, shading.z * A, A⟩
      else
        Vec4.zero
    else
      ⟨color.x * A, color.y * A, color.z * A, A⟩
  Ci + (1 - A) • C

/-- Renderer::traceRayComposite: back-to-front march from `tmax` down to
`tmin`, sample `k` at `t = tmax - k*step`. -/
def traceRayComposite (env : Env) (ray : Ray) (sampleStep : ℚ) : Vec4 :=
  (List.range (numSamples ray.tmin ray.tmax sampleStep)).foldl
    (fun C (k : ℕ) => compositeStep env ray (ray.tmax - (k : ℚ) * sampleStep) C) Vec4.zero

/-- Accumulated alpha of the Composite-1D march after `j` samples. -/
def compositeAlphaAfter (env : Env) (ray : Ray) (sampleStep : ℚ) (j : ℕ) : ℚ :=
  ((List.range j).foldl
    (fun C (k : ℕ) => compositeStep env ray (ray.tmax - (k : ℚ) * sampleStep) C) Vec4.zero).a

/-- Per-sample opacity of the Composite-1D march at parameter `t`. -/
def compositeOpacityAt (env : Env) (ray : Ray) (t : ℚ) : ℚ :=
  (getTFValue env.cfg (sampleAt env ray t)).a

/-- Modelled from the words of claim C1: the sample contribution is the
Phong-shaded TF color weighted by the sample opacity when shading is
enabled and the local gradient is nonzero, and otherwise (shading
disabled, or gradient zero) the raw TF color weighted by the opacity. -/
def sampleContributionC1 (env : Env) (ray : Ray) (t : ℚ) : Vec4 :=
  let samplePos := ray.origin + t • ray.direction
  let TFval := getTFValue env.cfg (env.vol samplePos)
  let color : Vec3 := ⟨TFval.r, TFval.g, TFval.b⟩
  let A := TFval.a
  if env.cfg.volumeShading = true ∧ (env.grad samplePos).dir ≠ Vec3.zero then
    let sh := env.phong color (env.grad samplePos) env.camPos ray.direction
    ⟨sh.x * A, sh.y * A, sh.z * A, A⟩
  else
    ⟨color.x * A, color.y * A, color.z * A, A⟩

/-- Back-to-front trace built from the claim-C1 per-sample contribution
and the over operator `C = C_i + (1 - A) * C`. -/
def traceRayCompositeC1 (env : Env) (ray : Ray) (sampleStep : ℚ) : Vec4 :=
  (List.range (numSamples ray.tmin ray.tmax sampleStep)).foldl
    (fun C (k : ℕ) =>
      sampleContributionC1 env ray (ray.tmax - (k : ℚ) * sampleStep)
        + (1 - compositeOpacityAt env ray (ray.tmax - (k : ℚ) * sampleStep)) • C)
    Vec4.zero

/-- Modelled from the amended claim C1: like `sampleContributionC1`, but
when shading is enabled and the gradient is zero the sample contributes
transparent black (its opacity still attenuates what lies behind through
the over operator). -/
def sampleContributionC1Amended (env : Env) (ray : Ray) (t : ℚ) : Vec4 :=
  let samplePos := ray.origin + t • ray.direction
  let TFval := getTFValue env.cfg (env.vol samplePos)
  let color : Vec3 := ⟨TFval.r, TFval.g, TFval.b⟩
  let A := TFval.a
  if env.cfg.volumeShading = true then
    if (env.grad samplePos).dir ≠ Vec3.zero then
      let sh := env.phong color (env.grad samplePos) env.camPos ray.direction
      ⟨sh.x * A, sh.y * A, sh.z * A, A⟩
    else
      Vec4.zero
  else
    ⟨color.x * A, color.y * A, color.z * A, A⟩

/-- Back-to-front trace built from the amended claim-C1 contribution. -/
def traceRayCompositeC1Amended (env : Env) (ray : Ray) (sampleStep : ℚ) : Vec4 :=
  (List.range (numSamples ray.tmin ray.tmax sampleStep)).foldl
    (fun C (k : ℕ) =>
      sampleContributionC1Amended env ray (ray.tmax - (k : ℚ) * sampleStep)
        + (1 - compositeOpacityAt env ray (ray.tmax - (k : ℚ) * sampleStep)) • C)
    Vec4.zero

/-- One front-to-back compositing step of `Renderer::traceRayTF2D` for
sample index `k`, on the state `(Ci, Ai)` (accumulated color, accumulated
alpha).  The source also performs a 1D-TF lookup whose result is never
read; that dead lookup is omitted. -/
def tf2dStep (env : Env) (ray : Ray) (step : ℚ) (k : ℕ) (s : Vec3 × ℚ) : Vec3 × ℚ :=
  let t := ray.tmin + (k : ℚ) * step
  let samplePos := ray.origin + t • ray.direction
  let val := env.vol samplePos
  let gradient := env.grad samplePos
  let TFOpacity := getTF2DOpacity env val gradient.magnitude
  let colorVector := env.cfg.TF2DColor
  let currentColor : Vec3 := ⟨colorVector.r * TFOpacity, colorVector.g * TFOpacity, colorVector.b * TFOpacity⟩
  let Ai := s.2
  let Ac : Vec3 := ⟨currentColor.x * (1 - Ai), currentColor.y * (1 - Ai), currentColor.z * (1 - Ai)⟩
  (s.1 + Ac, Ai + (1 - Ai) * TFOpacity)

/-- March of `Renderer::traceRayTF2D` with the early exit
`if (Ai >= 0.95) break;` checked at the top of each iteration. -/
def tf2dLoop (env : Env) (ray : Ray) (step : ℚ) : List ℕ → Vec3 × ℚ → Vec3 × ℚ
  | [], s => s
  | k :: ks, s =>
    if 95 / 100 ≤ s.2 then s
    else tf2dLoop env ray step ks (tf2dStep env ray step k s)

/-- Renderer::traceRayTF2D. -/
def traceRayTF2D (env : Env) (ray : Ray) (sampleStep : ℚ) : Vec4 :=
  let s := tf2dLoop env ray sampleStep
    (List.range (numSamples ray.tmin ray.tmax sampleStep)) (Vec3.zero, 0)
  ⟨s.1.x, s.1.y, s.1.z, s.2⟩

/-- Variant of `traceRayTF2D` that marches all samples to `tmax`
without the early exit (for the refinement claim C3). -/
def traceRayTF2DFull (env : Env) (ray : Ray) (sampleStep : ℚ) : Vec4 :=
  let s := (List.range (numSamples ray.tmin ray.tmax sampleStep)).foldl
    (fun s k => tf2dStep env ray sampleStep k s) (Vec3.zero, 0)
  ⟨s.1.x, s.1.y, s.1.z, s.2⟩

/-- Accumulated alpha of the TF-2D march (with its early exit) after the
first `j` sample indices. -/
def tf2dAlphaAfter (env : Env) (ray : Ray) (step : ℚ) (j : ℕ) : ℚ :=
  (tf2dLoop env ray step (List.range j) (Vec3.zero, 0)).2

/-- Near slab boundary for one axis:
`(bounds.lowerUpper[sign] - origin) * invDir` with `sign = invDir < 0`. -/
def slabEntry (lo up o inv : ℚ) : ℚ := ((if inv < 0 then up else lo) - o) * inv

/-- Far slab boundary for one axis:
`(bounds.lowerUpper[!sign] - origin) * invDir`. -/
def slabExit (lo up o inv : ℚ) : ℚ := ((if inv < 0 then lo else up) - o) * inv

/-- Renderer::instersectRayVolumeBounds (name as in the source).  Returns
`some (tmin, tmax)` in place of writing the fields and returning true,
`none` in place of returning false.  The rejection tests
`(tmin > tymax) || (tymin > tmax)` and `(tmin > tzmax) || (tzmin > tmax)`
are kept verbatim. -/
def instersectRayVolumeBounds (ray : Ray) (bounds : Bounds) : Option (ℚ × ℚ) :=
  let invDir : Vec3 := ⟨1 / ray.direction.x, 1 / ray.direction.y, 1 / ray.direction.z⟩
  let tmin0 := slabEntry bounds.lower.x bounds.upper.x ray.origin.x invDir.x
  let tmax0 := slabExit bounds.lower.x bounds.upper.x ray.origin.x invDir.x
  let tymin := slabEntry bounds.lower.y bounds.upper.y ray.origin.y invDir.y
  let tymax := slabExit bounds.lower.y bounds.upper.y ray.origin.y invDir.y
  if tymax < tmin0 ∨ tmax0 < tymin then none
  else
    let tmin1 := max tmin0 tymin
    let tmax1 := min tmax0 tymax
    let tzmin := slabEntry bounds.lower.z bounds.upper.z ray.origin.z invDir.z
    let tzmax := slabExit bounds.lower.z bounds.upper.z ray.origin.z invDir.z
    if tzmax < tmin1 ∨ tmax1 < tzmin then none
    else some (max tmin1 tzmin, min tmax1 tzmax)

/-- Renderer::traceRaySlice: one analytic sample on the plane through the
volume center perpendicular to the view direction. -/
def traceRaySlice (env : Env) (ray : Ray) (volumeCenter planeNormal : Vec3) : Vec4 :=
  let t := Vec3.dot (volumeCenter - ray.origin) planeNormal / Vec3.dot ray.direction planeNormal
  let samplePos := ray.origin + t • ray.direction
  let val := env.vol samplePos
  let gray := max (val / env.volMax) 0
  ⟨gray, gray, gray, 1⟩

/-- Renderer::traceRayMIP: maximum-intensity projection. -/
def traceRayMIP (env : Env) (ray : Ray) (sampleStep : ℚ) : Vec4 :=
  let maxVal := (List.range (numSamples ray.tmin ray.tmax sampleStep)).foldl
    (fun maxVal (k : ℕ) => max (sampleAt env ray (ray.tmin + (k : ℚ) * sampleStep)) maxVal) 0
  ⟨maxVal / env.volMax, maxVal / env.volMax, maxVal / env.volMax, 1⟩

/-- Copy tmin/tmax written by the intersection test into the ray. -/
def setRaySegment (ray : Ray) (tt : ℚ × ℚ) : Ray :=
  { ray with tmin := tt.1, tmax := tt.2 }

/-- Mode dispatch of `Renderer::render` (the switch statement). -/
def dispatchTracer (env : Env) (ray : Ray) (volumeCenter : Vec3) (sampleStep : ℚ) : Vec4 :=
  match env.cfg.renderMode with
  | RenderMode.renderSlicer => traceRaySlice env ray volumeCenter env.planeNormal
  | RenderMode.renderMIP => traceRayMIP env ray sampleStep
  | RenderMode.renderComposite => traceRayComposite env ray sampleStep
  | RenderMode.renderIso => traceRayISO env ray sampleStep
  | RenderMode.renderTF2D => traceRayTF2D env ray sampleStep

/-- Pixel traversal order of the sequential render loops
(`x` outer, `y` inner); the parallel tiling writes the same disjoint
slots and produces the same framebuffer. -/
def renderPixelList (w h : ℕ) : List (ℕ × ℕ) :=
  (List.range w).flatMap fun x => (List.range h).map fun y => (x, y)

/-- Per-pixel body of `Renderer::render`: generate the ray from the NDC
coordinates of the pixel, cull it against the bounding box, and on a hit
write the traced color at row-major index `y * width + x` (fillColor);
on a miss leave the framebuffer untouched. -/
def renderStep (env : Env) (genRay : ℚ → ℚ → Ray) (volumeCenter : Vec3) (bounds : Bounds)
    (w h : ℕ) (fb : ℕ → Vec4) (p : ℕ × ℕ) : ℕ → Vec4 :=
  let pixelRay := genRay ((p.1 : ℚ) / (w : ℚ) * 2 - 1) ((p.2 : ℚ) / (h : ℚ) * 2 - 1)
  match instersectRayVolumeBounds pixelRay bounds with
  | none => fb
  | some tt =>
    fun i => if i = p.2 * w + p.1 then dispatchTracer env (setRaySegment pixelRay tt) volumeCenter 1 else fb i

/-- Renderer::render: clear the framebuffer to `vec4(0)` (resetImage),
then process every pixel with `renderStep`; `sampleStep = 1.0f`,
`volumeCenter = dims/2`, `bounds = {vec3(0), dims - ivec3(1)}`.  The
framebuffer is modelled as a function from the row-major index. -/
def render (env : Env) (genRay : ℚ → ℚ → Ray) : ℕ → Vec4 :=
  let w := env.cfg.renderResolutionX
  let h := env.cfg.renderResolutionY
  let volumeCenter : Vec3 := (1 / 2 : ℚ) • env.volDims
  let bounds : Bounds := ⟨Vec3.zero, env.volDims - ⟨1, 1, 1⟩⟩
  (renderPixelList w h).foldl (renderStep env genRay volumeCenter bounds w h) (fun _ => Vec4.zero)

/-! ### Helper lemmas shared by several proofs -/

@[simp] lemma vec4AddDef (u v : Vec4) : u + v = ⟨u.r + v.r, u.g + v.g, u.b + v.b, u.a + v.a⟩ := rfl

@[simp] lemma vec4SmulDef (c : ℚ) (v : Vec4) : c • v = ⟨c * v.r, c * v.g, c * v.b, c * v.a⟩ := rfl

@[simp] lemma Vec4.zero_a : Vec4.zero.a = 0 := rfl

/-! ### Claim C6 -/

/-- C6: with a table of size ≥ 1 and a positive domain range, a value
exactly at the domain start maps to table index 0, and every value
≥ start + range is clamped to the last valid index, size − 1. -/
theorem C6_getTFIndex_endpoints (cfg : RenderConfig)
    (hsize : 1 ≤ cfg.tfColorMap.length) (hrange : 0 < cfg.tfColorMapIndexRange) :
    getTFIndex cfg cfg.tfColorMapIndexStart = 0 ∧
      ∀ val, cfg.tfColorMapIndexStart + cfg.tfColorMapIndexRange ≤ val →
        getTFIndex cfg val = cfg.tfColorMap.length - 1 := by
  constructor
  · simp [getTFIndex]
  · intro val hval
    have h1 : (1 : ℚ) ≤ (val - cfg.tfColorMapIndexStart) / cfg.tfColorMapIndexRange := by
      rw [le_div_iff₀ hrange]
      linarith
    have hlen : (cfg.tfColorMap.length : ℚ) ≤
        (val - cfg.tfColorMapIndexStart) / cfg.tfColorMapIndexRange * (cfg.tfColorMap.length : ℚ) := by
      nlinarith [Nat.cast_nonneg (α := ℚ) cfg.tfColorMap.length]
    have hfloor : (cfg.tfColorMap.length : ℤ) ≤
        Int.floor ((val - cfg.tfColorMapIndexStart) / cfg.tfColorMapIndexRange * (cfg.tfColorMap.length : ℚ)) := by
      rw [Int.le_floor]
      exact_mod_cast hlen
    have htn : cfg.tfColorMap.length ≤
        Int.toNat (Int.floor ((val - cfg.tfColorMapIndexStart) / cfg.tfColorMapIndexRange * (cfg.tfColorMap.length : ℚ))) := by
      omega
    simp only [getTFIndex]
    omega

/-- Concrete configuration used by the C6 witness: a two-entry table on
domain start 0, range 1. -/
def cfgW6 : RenderConfig :=
  { renderResolutionX := 1, renderResolutionY := 1, renderMode := RenderMode.renderComposite
    isoValue := 0, volumeShading := false
    tfColorMap := [⟨1, 0, 0, 1⟩, ⟨0, 1, 0, 1⟩]
    tfColorMapIndexStart := 0, tfColorMapIndexRange := 1
    TF2DColor := ⟨0, 0, 0, 0⟩, TF2DIntensity := 0, TF2DRadius := 1 }

/-- C6 witness: the theorem applied to `cfgW6` at the domain start and at
the value 5 ≥ start + range. -/
theorem C6_witness : getTFIndex cfgW6 0 = 0 ∧ getTFIndex cfgW6 5 = 1 := by
  have h := C6_getTFIndex_endpoints cfgW6 (by decide) (by norm_num [cfgW6])
  exact ⟨h.1, h.2 5 (by norm_num [cfgW6])⟩

/-! ### Claim C10 -/

/-- C10: with gradient magnitude 0, intensity different from the apex
intensity, positive radius and positive maximum gradient magnitude, the
2D opacity is exactly 0 and the triangle-membership test
`gradientMagnitude ≥ slope * input` fails, so the branch containing the
division `input / (gradientMagnitude / slope)` is never entered. -/
theorem C10_zero_gradient_outside (env : Env) (v : ℚ)
    (hR : 0 < env.cfg.TF2DRadius) (hM : 0 < env.gradMaxMag)
    (hv : v ≠ env.cfg.TF2DIntensity) :
    getTF2DOpacity env v 0 = 0 ∧
      ¬ (env.gradMaxMag / env.cfg.TF2DRadius * |v - env.cfg.TF2DIntensity| ≤ 0) := by
  have hslope : 0 < env.gradMaxMag / env.cfg.TF2DRadius := div_pos hM hR
  have hinput : 0 < |v - env.cfg.TF2DIntensity| := abs_pos.mpr (sub_ne_zero.mpr hv)
  have hguard : ¬ (env.gradMaxMag / env.cfg.TF2DRadius * |v - env.cfg.TF2DIntensity| ≤ 0) := by
    push_neg
    exact mul_pos hslope hinput
  refine ⟨?_, hguard⟩
  simp only [getTF2DOpacity]
  rw [if_neg hguard]

/-- Concrete environment used by the C10 witness. -/
def envW10 : Env :=
  { vol := fun _ => 0, volMax := 1, volDims := ⟨1, 1, 1⟩
    grad := fun _ => ⟨Vec3.zero, 0⟩, gradMaxMag := 2
    camPos := Vec3.zero, planeNormal := Vec3.zero
    phong := fun _ _ _ _ => Vec3.zero
    cfg := { cfgW6 with TF2DIntensity := 3, TF2DRadius := 1, TF2DColor := ⟨1, 1, 1, 1⟩ } }

/-- C10 witness: the theorem applied to `envW10` at intensity 5 ≠ 3. -/
theorem C10_witness : getTF2DOpacity envW10 5 0 = 0 :=
  (C10_zero_gradient_outside envW10 5 (by norm_num [envW10, cfgW6]) (by norm_num [envW10]) (by norm_num [envW10, cfgW6])).1

/-! ### Claim C7 -/

/-- Every sample strictly below the threshold leaves `isoLoop` in its
fall-through branch, so the march ends in opaque black. -/
lemma isoLoop_of_all_below (env : Env) (ray : Ray) (step : ℚ) :
    ∀ L : List ℕ,
      (∀ k ∈ L, sampleAt env ray (ray.tmin + (k : ℚ) * step) < env.cfg.isoValue) →
      isoLoop env ray step L = ⟨0, 0, 0, 1⟩ := by
  intro L
  induction L with
  | nil => intro _; rfl
  | cons k ks ih =>
    intro h
    have hk := h k (List.mem_cons_self k ks)
    have hnot : ¬ (env.cfg.isoValue ≤ sampleAt env ray (ray.tmin + (k : ℚ) * step)) := not_le.mpr hk
    simp only [isoLoop]
    rw [if_neg hnot]
    exact ih (fun j hj => h j (List.mem_cons_of_mem k hj))

/-- C7: `traceRayISO` returns opaque black (0,0,0,1) when no marched
sample reaches the iso threshold; in particular, when the whole field is
bounded by some `M` strictly below the threshold. -/
theorem C7_iso_background (env : Env) (ray : Ray) (step : ℚ) (M : ℚ) :
    ((∀ k, k < numSamples ray.tmin ray.tmax step →
        sampleAt env ray (ray.tmin + (k : ℚ) * step) < env.cfg.isoValue) →
      traceRayISO env ray step = ⟨0, 0, 0, 1⟩) ∧
    ((∀ p, env.vol p ≤ M) → M < env.cfg.isoValue →
      traceRayISO env ray step = ⟨0, 0, 0, 1⟩) := by
  constructor
  · intro h
    exact isoLoop_of_all_below env ray step _ (fun k hk => h k (List.mem_range.mp hk))
  · intro hM hlt
    refine isoLoop_of_all_below env ray step _ (fun k _ => ?_)
    exact lt_of_le_of_lt (hM _) hlt

/-- Concrete environment used by the C7 witness: constant field 0,
threshold 1. -/
def envW7 : Env :=
  { envW10 with cfg := { cfgW6 with isoValue := 1 } }

/-- Concrete ray used by several witnesses: origin at the center axis,
marching along x over `[0, 2]`. -/
def rayW : Ray := { origin := Vec3.zero, direction := ⟨1, 0, 0⟩, tmin := 0, tmax := 2 }

/-- C7 witness: the theorem applied to `envW7` with field bound 0 < 1. -/
theorem C7_witness : traceRayISO envW7 rayW 1 = ⟨0, 0, 0, 1⟩ :=
  (C7_iso_background envW7 rayW 1 0).2 (fun _ => le_refl 0) (by norm_num [envW7, cfgW6])

/-! ### Claim C5 -/

/-- The instrumented bisection loop returns the same t as the source's. -/
lemma bisectLoopI_fst (env : Env) (ray : Ray) (iso : ℚ) :
    ∀ (n : ℕ) (l r tl : ℚ),
      (bisectLoopI env ray iso n l r tl).1 = bisectLoop env ray iso n l r tl := by
  intro n
  induction n with
  | zero => intro l r tl; rfl
  | succ m ih =>
    intro l r tl
    simp only [bisectLoopI, bisectLoop]
    split
    · rfl
    · split
      · exact ih l ((l + r) / 2) ((l + r) / 2)
      · exact ih ((l + r) / 2) r ((l + r) / 2)

/-- The instrumented loop performs at most `n` midpoint evaluations. -/
lemma bisectLoopI_count_le (env : Env) (ray : Ray) (iso : ℚ) :
    ∀ (n : ℕ) (l r tl : ℚ), (bisectLoopI env ray iso n l r tl).2.1 ≤ n := by
  intro n
  induction n with
  | zero => intro l r tl; exact Nat.le_refl 0
  | succ m ih =>
    intro l r tl
    simp only [bisectLoopI]
    split
    · dsimp only
      omega
    · split
      · have := ih l ((l + r) / 2) ((l + r) / 2)
        dsimp only
        omega
      · have := ih ((l + r) / 2) r ((l + r) / 2)
        dsimp only
        omega

/-- The returned t stays inside any interval containing the bracket and
the carried last midpoint. -/
lemma bisectLoopI_mem (env : Env) (ray : Ray) (iso lo hi : ℚ) :
    ∀ (n : ℕ) (l r tl : ℚ), lo ≤ l → l ≤ r → r ≤ hi → lo ≤ tl → tl ≤ hi →
      lo ≤ (bisectLoopI env ray iso n l r tl).1 ∧ (bisectLoopI env ray iso n l r tl).1 ≤ hi := by
  intro n
  induction n with
  | zero => intro l r tl _ _ _ h4 h5; exact ⟨h4, h5⟩
  | succ m ih =>
    intro l r tl h1 h2 h3 _ _
    have hml : l ≤ (l + r) / 2 := by linarith
    have hmr : (l + r) / 2 ≤ r := by linarith
    simp only [bisectLoopI]
    split
    · exact ⟨le_trans h1 hml, le_trans hmr h3⟩
    · split
      · exact ih l ((l + r) / 2) ((l + r) / 2) h1 hml (le_trans hmr h3)
          (le_trans h1 hml) (le_trans hmr h3)
      · exact ih ((l + r) / 2) r ((l + r) / 2) (le_trans h1 hml) hmr h3
          (le_trans h1 hml) (le_trans hmr h3)

/-- When the instrumented loop reports convergence, the sample at the
returned t is within 0.01 of the iso value. -/
lemma bisectLoopI_converged (env : Env) (ray : Ray) (iso : ℚ) :
    ∀ (n : ℕ) (l r tl : ℚ), (bisectLoopI env ray iso n l r tl).2.2 = true →
      |sampleAt env ray (bisectLoopI env ray iso n l r tl).1 - iso| < 1 / 100 := by
  intro n
  induction n with
  | zero => intro l r tl h; exact absurd h (by simp [bisectLoopI])
  | succ m ih =>
    intro l r tl
    simp only [bisectLoopI]
    split
    · rename_i hc
      intro _
      exact hc
    · split
      · dsimp only
        exact ih l ((l + r) / 2) ((l + r) / 2)
      · dsimp only
        exact ih ((l + r) / 2) r ((l + r) / 2)

/-- When the instrumented loop reports no convergence, all `n` budgeted
iterations were used. -/
lemma bisectLoopI_exhausted (env : Env) (ray : Ray) (iso : ℚ) :
    ∀ (n : ℕ) (l r tl : ℚ), (bisectLoopI env ray iso n l r tl).2.2 = false →
      (bisectLoopI env ray iso n l r tl).2.1 = n := by
  intro n
  induction n with
  | zero => intro l r tl _; rfl
  | succ m ih =>
    intro l r tl
    simp only [bisectLoopI]
    split
    · intro h; exact absurd h (by simp)
    · split
      · dsimp only
        intro h
        have := ih l ((l + r) / 2) ((l + r) / 2) h
        omega
      · dsimp only
        intro h
        have := ih ((l + r) / 2) r ((l + r) / 2) h
        omega

/-- C5: with `t0 ≤ t1`, `bisectionAccuracy` returns the t produced by at
most 10 midpoint evaluations, that t lies inside `[t0, t1]`, and either
the convergence test `|value − isoValue| < 0.01` succeeded at the
returned t, or all 10 iterations were used (and the returned t is the
last midpoint computed, which is how `bisectLoop` terminates at fuel 0). -/
theorem C5_bisection (env : Env) (ray : Ray) (t0 t1 iso : ℚ) (h01 : t0 ≤ t1) :
    bisectionAccuracy env ray t0 t1 iso = (bisectLoopI env ray iso 10 t0 t1 ((t0 + t1) / 2)).1 ∧
    t0 ≤ bisectionAccuracy env ray t0 t1 iso ∧
    bisectionAccuracy env ray t0 t1 iso ≤ t1 ∧
    (bisectLoopI env ray iso 10 t0 t1 ((t0 + t1) / 2)).2.1 ≤ 10 ∧
    ((bisectLoopI env ray iso 10 t0 t1 ((t0 + t1) / 2)).2.2 = true →
      |sampleAt env ray (bisectionAccuracy env ray t0 t1 iso) - iso| < 1 / 100) ∧
    ((bisectLoopI env ray iso 10 t0 t1 ((t0 + t1) / 2)).2.2 = false →
      (bisectLoopI env ray iso 10 t0 t1 ((t0 + t1) / 2)).2.1 = 10) := by
  have hfst := bisectLoopI_fst env ray iso 10 t0 t1 ((t0 + t1) / 2)
  have hmem := bisectLoopI_mem env ray iso t0 t1 10 t0 t1 ((t0 + t1) / 2)
    (le_refl t0) h01 (le_refl t1) (by linarith) (by linarith)
  have heq : bisectionAccuracy env ray t0 t1 iso = (bisectLoopI env ray iso 10 t0 t1 ((t0 + t1) / 2)).1 := by
    rw [hfst]; rfl
  refine ⟨heq, ?_, ?_, bisectLoopI_count_le env ray iso 10 t0 t1 ((t0 + t1) / 2), ?_, ?_⟩
  · rw [heq]; exact hmem.1
  · rw [heq]; exact hmem.2
  · intro hc
    rw [heq]
    exact bisectLoopI_converged env ray iso 10 t0 t1 ((t0 + t1) / 2) hc
  · exact bisectLoopI_exhausted env ray iso 10 t0 t1 ((t0 + t1) / 2)

/-- Concrete environment used by the C5 witness: the field grows linearly
along x, so `sampleAt` at parameter t is t itself. -/
def envW5 : Env :=
  { envW10 with vol := fun p => p.x }

/-- C5 witness: the theorem applied to `envW5` on the bracket `[0, 2]`
with iso value 3/2; the bisection converges to t = 3/2 inside `[0, 2]`. -/
theorem C5_witness :
    bisectionAccuracy envW5 rayW 0 2 (3 / 2) = (bisectLoopI envW5 rayW (3 / 2) 10 0 2 1).1 ∧
    (0 : ℚ) ≤ bisectionAccuracy envW5 rayW 0 2 (3 / 2) ∧
    bisectionAccuracy envW5 rayW 0 2 (3 / 2) ≤ 2 := by
  have h := C5_bisection envW5 rayW 0 2 (3 / 2) (by norm_num)
  norm_num at h ⊢
  exact ⟨h.1, h.2.1, h.2.2.1⟩

/-! ### Claim C4 -/

/-- Per-axis slab interval is well ordered whatever the sign of the
inverse direction (including the rational 1/0 = 0 degenerate case, where
both ends collapse to 0). -/
lemma slabEntry_le_slabExit (lo up o inv : ℚ) (hlu : lo ≤ up) :
    slabEntry lo up o inv ≤ slabExit lo up o inv := by
  unfold slabEntry slabExit
  by_cases h : inv < 0
  · rw [if_pos h, if_pos h]
    nlinarith
  · rw [if_neg h, if_neg h]
    push_neg at h
    nlinarith

/-- With the origin inside the slab, the entry distance is ≤ 0. -/
lemma slabEntry_nonpos (lo up o inv : ℚ) (h1 : lo ≤ o) (h2 : o ≤ up) :
    slabEntry lo up o inv ≤ 0 := by
  unfold slabEntry
  by_cases h : inv < 0
  · rw [if_pos h]
    nlinarith
  · rw [if_neg h]
    push_neg at h
    nlinarith

/-- With the origin inside the slab, the exit distance is ≥ 0. -/
lemma slabExit_nonneg (lo up o inv : ℚ) (h1 : lo ≤ o) (h2 : o ≤ up) :
    0 ≤ slabExit lo up o inv := by
  unfold slabExit
  by_cases h : inv < 0
  · rw [if_pos h]
    nlinarith
  · rw [if_neg h]
    push_neg at h
    nlinarith

/-- C4: whenever `instersectRayVolumeBounds` reports a hit, the written
interval satisfies tmin ≤ tmax; and for a ray whose origin lies inside
the box it reports a hit with tmin ≤ 0 ≤ tmax.  The nonzero-direction
hypotheses scope the statement to where the rational model (1/0 = 0)
agrees with the IEEE-infinity arithmetic of the C++. -/
theorem C4_intersect_postcondition (ray : Ray) (bounds : Bounds)
    (hbx : bounds.lower.x ≤ bounds.upper.x)
    (hby : bounds.lower.y ≤ bounds.upper.y)
    (hbz : bounds.lower.z ≤ bounds.upper.z)
    (hdx : ray.direction.x ≠ 0) (hdy : ray.direction.y ≠ 0) (hdz : ray.direction.z ≠ 0) :
    (∀ tn tx, instersectRayVolumeBounds ray bounds = some (tn, tx) → tn ≤ tx) ∧
    ((bounds.lower.x ≤ ray.origin.x ∧ ray.origin.x ≤ bounds.upper.x ∧
      bounds.lower.y ≤ ray.origin.y ∧ ray.origin.y ≤ bounds.upper.y ∧
      bounds.lower.z ≤ ray.origin.z ∧ ray.origin.z ≤ bounds.upper.z) →
      ∃ tn tx, instersectRayVolumeBounds ray bounds = some (tn, tx) ∧ tn ≤ 0 ∧ 0 ≤ tx) := by
  have hxx := slabEntry_le_slabExit bounds.lower.x bounds.upper.x ray.origin.x (1 / ray.direction.x) hbx
  have hyy := slabEntry_le_slabExit bounds.lower.y bounds.upper.y ray.origin.y (1 / ray.direction.y) hby
  have hzz := slabEntry_le_slabExit bounds.lower.z bounds.upper.z ray.origin.z (1 / ray.direction.z) hbz
  constructor
  · intro tn tx h
    simp only [instersectRayVolumeBounds] at h
    split_ifs at h with hc1 hc2
    push_neg at hc1 hc2
    simp only [Option.some.injEq, Prod.mk.injEq] at h
    obtain ⟨h5, h6⟩ := h
    rw [← h5, ← h6]
    have h3x : slabEntry bounds.lower.x bounds.upper.x ray.origin.x (1 / ray.direction.x) ≤
        slabExit bounds.lower.z bounds.upper.z ray.origin.z (1 / ray.direction.z) :=
      le_trans (le_max_left _ _) hc2.1
    have h3y : slabEntry bounds.lower.y bounds.upper.y ray.origin.y (1 / ray.direction.y) ≤
        slabExit bounds.lower.z bounds.upper.z ray.origin.z (1 / ray.direction.z) :=
      le_trans (le_max_right _ _) hc2.1
    have h4x : slabEntry bounds.lower.z bounds.upper.z ray.origin.z (1 / ray.direction.z) ≤
        slabExit bounds.lower.x bounds.upper.x ray.origin.x (1 / ray.direction.x) :=
      le_trans hc2.2 (min_le_left _ _)
    have h4y : slabEntry bounds.lower.z bounds.upper.z ray.origin.z (1 / ray.direction.z) ≤
        slabExit bounds.lower.y bounds.upper.y ray.origin.y (1 / ray.direction.y) :=
      le_trans hc2.2 (min_le_right _ _)
    exact max_le (max_le (le_min (le_min hxx hc1.1) h3x) (le_min (le_min hc1.2 hyy) h3y))
      (le_min (le_min h4x h4y) hzz)
  · rintro ⟨hix1, hix2, hiy1, hiy2, hiz1, hiz2⟩
    have hex := slabEntry_nonpos bounds.lower.x bounds.upper.x ray.origin.x (1 / ray.direction.x) hix1 hix2
    have hEx := slabExit_nonneg bounds.lower.x bounds.upper.x ray.origin.x (1 / ray.direction.x) hix1 hix2
    have hey := slabEntry_nonpos bounds.lower.y bounds.upper.y ray.origin.y (1 / ray.direction.y) hiy1 hiy2
    have hEy := slabExit_nonneg bounds.lower.y bounds.upper.y ray.origin.y (1 / ray.direction.y) hiy1 hiy2
    have hez := slabEntry_nonpos bounds.lower.z bounds.upper.z ray.origin.z (1 / ray.direction.z) hiz1 hiz2
    have hEz := slabExit_nonneg bounds.lower.z bounds.upper.z ray.origin.z (1 / ray.direction.z) hiz1 hiz2
    have hc1 : ¬ (slabExit bounds.lower.y bounds.upper.y ray.origin.y (1 / ray.direction.y) <
          slabEntry bounds.lower.x bounds.upper.x ray.origin.x (1 / ray.direction.x) ∨
        slabExit bounds.lower.x bounds.upper.x ray.origin.x (1 / ray.direction.x) <
          slabEntry bounds.lower.y bounds.upper.y ray.origin.y (1 / ray.direction.y)) := by
      push_neg
      exact ⟨le_trans hex hEy, le_trans hey hEx⟩
    have hc2 : ¬ (slabExit bounds.lower.z bounds.upper.z ray.origin.z (1 / ray.direction.z) <
          max (slabEntry bounds.lower.x bounds.upper.x ray.origin.x (1 / ray.direction.x))
            (slabEntry bounds.lower.y bounds.upper.y ray.origin.y (1 / ray.direction.y)) ∨
        min (slabExit bounds.lower.x bounds.upper.x ray.origin.x (1 / ray.direction.x))
            (slabExit bounds.lower.y bounds.upper.y ray.origin.y (1 / ray.direction.y)) <
          slabEntry bounds.lower.z bounds.upper.z ray.origin.z (1 / ray.direction.z)) := by
      push_neg
      exact ⟨le_trans (max_le hex hey) hEz, le_trans hez (le_min hEx hEy)⟩
    refine ⟨max (max (slabEntry bounds.lower.x bounds.upper.x ray.origin.x (1 / ray.direction.x))
          (slabEntry bounds.lower.y bounds.upper.y ray.origin.y (1 / ray.direction.y)))
        (slabEntry bounds.lower.z bounds.upper.z ray.origin.z (1 / ray.direction.z)),
      min (min (slabExit bounds.lower.x bounds.upper.x ray.origin.x (1 / ray.direction.x))
          (slabExit bounds.lower.y bounds.upper.y ray.origin.y (1 / ray.direction.y)))
        (slabExit bounds.lower.z bounds.upper.z ray.origin.z (1 / ray.direction.z)), ?_, ?_, ?_⟩
    · simp only [instersectRayVolumeBounds]
      rw [if_neg hc1, if_neg hc2]
    · exact max_le (max_le hex hey) hez
    · exact le_min (le_min hEx hEy) hEz

/-- Concrete bounds used by the C4 witness: the unit-2 cube. -/
def boundsW : Bounds := { lower := Vec3.zero, upper := ⟨2, 2, 2⟩ }

/-- Concrete ray used by the C4 witness: origin (1,1,1) inside the box,
direction (1,1,1). -/
def rayW4 : Ray := { origin := ⟨1, 1, 1⟩, direction := ⟨1, 1, 1⟩, tmin := 0, tmax := 0 }

/-- C4 witness: the theorem applied to `rayW4` inside `boundsW`. -/
theorem C4_witness :
    ∃ tn tx, instersectRayVolumeBounds rayW4 boundsW = some (tn, tx) ∧ tn ≤ 0 ∧ 0 ≤ tx :=
  (C4_intersect_postcondition rayW4 boundsW (by norm_num [boundsW, Vec3.zero])
      (by norm_num [boundsW, Vec3.zero]) (by norm_num [boundsW, Vec3.zero])
      (by norm_num [rayW4]) (by norm_num [rayW4]) (by norm_num [rayW4])).2
    (by norm_num [boundsW, rayW4, Vec3.zero])

/-! ### Claim C1 -/

/-- One Composite-1D step written through the amended per-sample
contribution: the two definitions agree branch by branch. -/
lemma compositeStep_eq_amended (env : Env) (ray : Ray) (t : ℚ) (C : Vec4) :
    compositeStep env ray t C =
      sampleContributionC1Amended env ray t + (1 - compositeOpacityAt env ray t) • C := by
  simp only [compositeStep, sampleContributionC1Amended, compositeOpacityAt, sampleAt]

/-- C1 (amended): in Composite-1D mode, every back-to-front march step
contributes the Phong-shaded TF color weighted by the sample opacity when
volume shading is enabled and the local gradient is nonzero, the raw
1D-TF color weighted by the opacity when shading is disabled, and —
contrary to the claim as stated — transparent black `vec4(0)` when
shading is enabled and the gradient is zero (that sample's opacity then
only attenuates the accumulated color through `(1 - A) * C`). -/
theorem C1_composite_contribution (env : Env) (ray : Ray) (sampleStep : ℚ) :
    traceRayComposite env ray sampleStep = traceRayCompositeC1Amended env ray sampleStep := by
  unfold traceRayComposite traceRayCompositeC1Amended
  exact List.foldl_ext _ _ _ (fun C k _ => compositeStep_eq_amended env ray (ray.tmax - (k : ℚ) * sampleStep) C)

/-- Concrete environment for the C1 counterexample: shading enabled, the
gradient field identically zero, a single-entry TF table with color
(1,0,0) and opacity 1/2. -/
def envC1 : Env :=
  { vol := fun _ => 0, volMax := 1, volDims := ⟨1, 1, 1⟩
    grad := fun _ => ⟨Vec3.zero, 0⟩, gradMaxMag := 1
    camPos := Vec3.zero, planeNormal := Vec3.zero
    phong := fun _ _ _ _ => Vec3.zero
    cfg := { renderResolutionX := 1, renderResolutionY := 1
             renderMode := RenderMode.renderComposite
             isoValue := 0, volumeShading := true
             tfColorMap := [⟨1, 0, 0, 1 / 2⟩]
             tfColorMapIndexStart := 0, tfColorMapIndexRange := 1
             TF2DColor := ⟨0, 0, 0, 0⟩, TF2DIntensity := 0, TF2DRadius := 1 } }

/-- Concrete one-sample ray for the C1 counterexample. -/
def rayC1 : Ray := { origin := Vec3.zero, direction := ⟨1, 0, 0⟩, tmin := 0, tmax := 0 }

/-- C1 counterexample: with shading enabled and a zero local gradient the
code's sample contribution is `vec4(0)`, not the raw TF color weighted by
the opacity that the claim as stated predicts, so the traced color
(0,0,0,0) differs from the claim's (1/2,0,0,1/2). -/
theorem C1_counterexample :
    traceRayComposite envC1 rayC1 1 ≠ traceRayCompositeC1 envC1 rayC1 1 := by
  norm_num [traceRayComposite, traceRayCompositeC1, envC1, rayC1, numSamples, compositeStep,
    sampleContributionC1, compositeOpacityAt, sampleAt, getTFValue, getTFIndex, Vec3.zero,
    Vec4.zero, Vec4.mk.injEq, List.range_succ, List.range_zero]

/-! ### Claim C3 -/

/-- As long as the accumulated alpha before each sample stays below 0.95,
the early-exit march takes no exit and agrees with the plain fold. -/
lemma tf2dLoop_eq_foldl (env : Env) (ray : Ray) (step : ℚ) :
    ∀ (L : List ℕ) (s : Vec3 × ℚ),
      (∀ j, j < L.length → (tf2dLoop env ray step (L.take j) s).2 < 95 / 100) →
      tf2dLoop env ray step L s = L.foldl (fun s k => tf2dStep env ray step k s) s := by
  intro L
  induction L with
  | nil => intro s _; rfl
  | cons k ks ih =>
    intro s h
    have h0 : s.2 < 95 / 100 := by
      have h1 := h 0 (Nat.succ_pos _)
      simpa [tf2dLoop] using h1
    simp only [tf2dLoop, List.foldl_cons]
    rw [if_neg (not_le.mpr h0)]
    apply ih
    intro j hj
    have h2 := h (j + 1) (Nat.succ_lt_succ hj)
    rw [List.take_succ_cons] at h2
    simp only [tf2dLoop] at h2
    rw [if_neg (not_le.mpr h0)] at h2
    exact h2

/-- C3 (amended): `traceRayTF2D` equals the full march to `tmax` whenever
the accumulated alpha stays below 0.95 before every sample of the march;
once some prefix reaches alpha ≥ 0.95 the remaining samples are simply
skipped and the two variants may differ (see the counterexample). -/
theorem C3_early_exit_refinement (env : Env) (ray : Ray) (step : ℚ)
    (h : ∀ j, j < numSamples ray.tmin ray.tmax step →
      tf2dAlphaAfter env ray step j < 95 / 100) :
    traceRayTF2D env ray step = traceRayTF2DFull env ray step := by
  have h2 : ∀ j, j < (List.range (numSamples ray.tmin ray.tmax step)).length →
      (tf2dLoop env ray step ((List.range (numSamples ray.tmin ray.tmax step)).take j)
        (Vec3.zero, 0)).2 < 95 / 100 := by
    intro j hj
    rw [List.length_range] at hj
    rw [List.take_range, min_eq_left (le_of_lt hj)]
    exact h j hj
  simp only [traceRayTF2D, traceRayTF2DFull]
  rw [tf2dLoop_eq_foldl env ray step _ _ h2]

/-- C3 witness environment: the TF-2D base color has alpha 0, so every
sample opacity is 0 and the accumulated alpha never moves. -/
def envW3 : Env :=
  { envW10 with cfg := { cfgW6 with TF2DColor := ⟨1, 1, 1, 0⟩ } }

/-- C3 witness: the theorem applied to `envW3` on the one-sample ray. -/
theorem C3_witness : traceRayTF2D envW3 rayC1 1 = traceRayTF2DFull envW3 rayC1 1 := by
  apply C3_early_exit_refinement
  intro j hj
  norm_num [numSamples, rayC1] at hj
  subst hj
  norm_num [tf2dAlphaAfter, tf2dLoop]

/-- C3 counterexample environment: constant sample opacity 24/25 = 0.96,
so the first sample already pushes the accumulated alpha past 0.95. -/
def envC3 : Env :=
  { vol := fun _ => 0, volMax := 1, volDims := ⟨1, 1, 1⟩
    grad := fun _ => ⟨⟨0, 0, 1⟩, 1⟩, gradMaxMag := 1
    camPos := Vec3.zero, planeNormal := Vec3.zero
    phong := fun _ _ _ _ => Vec3.zero
    cfg := { cfgW6 with TF2DColor := ⟨1, 0, 0, 24 / 25⟩, TF2DIntensity := 0, TF2DRadius := 1 } }

/-- Two-sample ray for the C3 counterexample. -/
def rayC3 : Ray := { origin := Vec3.zero, direction := ⟨1, 0, 0⟩, tmin := 0, tmax := 1 }

/-- C3 counterexample: after the first sample the accumulated alpha is
0.96 ≥ 0.95, the early exit skips the second sample, and the result
(24/25, 0, 0, 24/25) differs from the full march's (624/625, 0, 0,
624/625) — the claim that the two always agree is false. -/
theorem C3_counterexample : traceRayTF2D envC3 rayC3 1 ≠ traceRayTF2DFull envC3 rayC3 1 := by
  norm_num [traceRayTF2D, traceRayTF2DFull, envC3, rayC3, cfgW6, numSamples, tf2dLoop, tf2dStep,
    getTF2DOpacity, sampleAt, Vec3.zero, Vec4.mk.injEq, List.range_succ, List.range_zero]

/-! ### Claim C2 -/

@[simp] lemma vec3AddDef (u v : Vec3) : u + v = ⟨u.x + v.x, u.y + v.y, u.z + v.z⟩ := rfl

@[simp] lemma vec3SubDef (u v : Vec3) : u - v = ⟨u.x - v.x, u.y - v.y, u.z - v.z⟩ := rfl

@[simp] lemma vec3SmulDef (c : ℚ) (v : Vec3) : c • v = ⟨c * v.x, c * v.y, c * v.z⟩ := rfl

/-- Arithmetic core of the over operator: one compositing step keeps the
accumulated alpha monotone and inside [0, 1]. -/
lemma alpha_step_bounds (a op : ℚ) (ha0 : 0 ≤ a) (ha1 : a ≤ 1) (ho0 : 0 ≤ op) (ho1 : op ≤ 1) :
    a ≤ a + (1 - a) * op ∧ 0 ≤ a + (1 - a) * op ∧ a + (1 - a) * op ≤ 1 :=
  ⟨by nlinarith, by nlinarith, by nlinarith⟩

/-- Alpha written by one TF-2D step. -/
lemma tf2dStep_alpha (env : Env) (ray : Ray) (step : ℚ) (k : ℕ) (s : Vec3 × ℚ) :
    (tf2dStep env ray step k s).2 =
      s.2 + (1 - s.2) * getTF2DOpacity env
        (env.vol (ray.origin + (ray.tmin + (k : ℚ) * step) • ray.direction))
        ((env.grad (ray.origin + (ray.tmin + (k : ℚ) * step) • ray.direction)).magnitude) := rfl

/-- Once the accumulated alpha has reached 0.95 the TF-2D march never
moves again. -/
lemma tf2dLoop_saturated (env : Env) (ray : Ray) (step : ℚ) :
    ∀ (L : List ℕ) (s : Vec3 × ℚ), 95 / 100 ≤ s.2 → tf2dLoop env ray step L s = s := by
  intro L s h
  cases L with
  | nil => rfl
  | cons k ks => simp only [tf2dLoop]; rw [if_pos h]

/-- The TF-2D march splits over list append. -/
lemma tf2dLoop_append (env : Env) (ray : Ray) (step : ℚ) :
    ∀ (L1 L2 : List ℕ) (s : Vec3 × ℚ),
      tf2dLoop env ray step (L1 ++ L2) s = tf2dLoop env ray step L2 (tf2dLoop env ray step L1 s) := by
  intro L1
  induction L1 with
  | nil => intro L2 s; rfl
  | cons k ks ih =>
    intro L2 s
    by_cases h : 95 / 100 ≤ s.2
    · simp only [List.cons_append, tf2dLoop]
      rw [if_pos h, if_pos h, tf2dLoop_saturated env ray step L2 s h]
    · simp only [List.cons_append, tf2dLoop]
      rw [if_neg h, if_neg h]
      exact ih L2 (tf2dStep env ray step k s)

/-- With every 2D opacity in [0, 1], the TF-2D march keeps the
accumulated alpha in [0, 1]. -/
lemma tf2dLoop_alpha_bounds (env : Env) (ray : Ray) (step : ℚ)
    (hop : ∀ v g, 0 ≤ getTF2DOpacity env v g ∧ getTF2DOpacity env v g ≤ 1) :
    ∀ (L : List ℕ) (s : Vec3 × ℚ), 0 ≤ s.2 → s.2 ≤ 1 →
      0 ≤ (tf2dLoop env ray step L s).2 ∧ (tf2dLoop env ray step L s).2 ≤ 1 := by
  intro L
  induction L with
  | nil => intro s h0 h1; exact ⟨h0, h1⟩
  | cons k ks ih =>
    intro s h0 h1
    simp only [tf2dLoop]
    split
    · exact ⟨h0, h1⟩
    · have ho := hop (env.vol (ray.origin + (ray.tmin + (k : ℚ) * step) • ray.direction))
        ((env.grad (ray.origin + (ray.tmin + (k : ℚ) * step) • ray.direction)).magnitude)
      have hstep := alpha_step_bounds s.2 _ h0 h1 ho.1 ho.2
      refine ih (tf2dStep env ray step k s) ?_ ?_
      · rw [tf2dStep_alpha]; exact hstep.2.1
      · rw [tf2dStep_alpha]; exact hstep.2.2

/-- Alpha written by one Composite-1D step: the over-operator update, or
its colorless variant when shading is on and the gradient is zero. -/
lemma compositeStep_a_cases (env : Env) (ray : Ray) (t : ℚ) (C : Vec4) :
    (compositeStep env ray t C).a =
        compositeOpacityAt env ray t + (1 - compositeOpacityAt env ray t) * C.a ∨
      (compositeStep env ray t C).a = (1 - compositeOpacityAt env ray t) * C.a := by
  simp only [compositeStep, compositeOpacityAt, sampleAt]
  split_ifs with h1 h2
  · left; simp
  · right; simp [Vec4.zero]
  · left; simp

/-- When shading is disabled or no sampled gradient is zero, the
Composite-1D alpha update is exactly the over operator. -/
lemma compositeStep_a_of_safe (env : Env) (ray : Ray) (t : ℚ) (C : Vec4)
    (hs : env.cfg.volumeShading = false ∨ ∀ p, (env.grad p).dir ≠ Vec3.zero) :
    (compositeStep env ray t C).a =
      compositeOpacityAt env ray t + (1 - compositeOpacityAt env ray t) * C.a := by
  simp only [compositeStep, compositeOpacityAt, sampleAt]
  rcases hs with hs | hs
  · rw [if_neg (by simp [hs])]
    simp
  · split_ifs with h1 h2
    · simp
    · exact absurd (hs _) h2
    · simp

/-- Unrolling one Composite-1D march step at the end of a prefix. -/
lemma compositeAlphaAfter_succ (env : Env) (ray : Ray) (step : ℚ) (j : ℕ) :
    compositeAlphaAfter env ray step (j + 1) =
      (compositeStep env ray (ray.tmax - (j : ℚ) * step)
        ((List.range j).foldl
          (fun C (k : ℕ) => compositeStep env ray (ray.tmax - (k : ℚ) * step) C) Vec4.zero)).a := by
  unfold compositeAlphaAfter
  rw [List.range_succ, List.foldl_append]
  rfl

/-- With every 1D-TF opacity in [0, 1], the Composite-1D march keeps the
accumulated alpha in [0, 1] (also through the colorless zero-gradient
branch). -/
lemma compositeFold_alpha_bounds (env : Env) (ray : Ray) (step : ℚ)
    (hop : ∀ v, 0 ≤ (getTFValue env.cfg v).a ∧ (getTFValue env.cfg v).a ≤ 1) :
    ∀ (L : List ℕ) (C : Vec4), 0 ≤ C.a → C.a ≤ 1 →
      0 ≤ (L.foldl (fun C (k : ℕ) => compositeStep env ray (ray.tmax - (k : ℚ) * step) C) C).a ∧
        (L.foldl (fun C (k : ℕ) => compositeStep env ray (ray.tmax - (k : ℚ) * step) C) C).a ≤ 1 := by
  intro L
  induction L with
  | nil => intro C h0 h1; exact ⟨h0, h1⟩
  | cons k ks ih =>
    intro C h0 h1
    simp only [List.foldl_cons]
    have ho : 0 ≤ compositeOpacityAt env ray (ray.tmax - (k : ℚ) * step) ∧
        compositeOpacityAt env ray (ray.tmax - (k : ℚ) * step) ≤ 1 :=
      hop (sampleAt env ray (ray.tmax - (k : ℚ) * step))
    have hb : 0 ≤ (compositeStep env ray (ray.tmax - (k : ℚ) * step) C).a ∧
        (compositeStep env ray (ray.tmax - (k : ℚ) * step) C).a ≤ 1 := by
      rcases compositeStep_a_cases env ray (ray.tmax - (k : ℚ) * step) C with h | h
      · rw [h]; constructor <;> nlinarith [ho.1, ho.2]
      · rw [h]; constructor <;> nlinarith [ho.1, ho.2]
    exact ih _ hb.1 hb.2

/-- C2 (amended): with every per-sample opacity in [0, 1], the TF-2D
accumulated alpha is non-decreasing step to step and stays in [0, 1],
and the Composite-1D accumulated alpha stays in [0, 1]; monotonicity of
the Composite-1D alpha additionally requires shading to be disabled or
all sampled gradients nonzero — the claim as stated is false in the
shading-enabled zero-gradient case (see the counterexample). -/
theorem C2_alpha_monotone_bounded (env : Env) (ray : Ray) (step : ℚ)
    (hop2 : ∀ v g, 0 ≤ getTF2DOpacity env v g ∧ getTF2DOpacity env v g ≤ 1)
    (hop1 : ∀ v, 0 ≤ (getTFValue env.cfg v).a ∧ (getTFValue env.cfg v).a ≤ 1)
    (j : ℕ) :
    (tf2dAlphaAfter env ray step j ≤ tf2dAlphaAfter env ray step (j + 1) ∧
      0 ≤ tf2dAlphaAfter env ray step j ∧ tf2dAlphaAfter env ray step j ≤ 1) ∧
    (0 ≤ compositeAlphaAfter env ray step j ∧ compositeAlphaAfter env ray step j ≤ 1) ∧
    ((env.cfg.volumeShading = false ∨ ∀ p, (env.grad p).dir ≠ Vec3.zero) →
      compositeAlphaAfter env ray step j ≤ compositeAlphaAfter env ray step (j + 1)) := by
  have htb := tf2dLoop_alpha_bounds env ray step hop2 (List.range j) (Vec3.zero, 0)
    (le_refl 0) zero_le_one
  have hcb := compositeFold_alpha_bounds env ray step hop1 (List.range j) Vec4.zero
    (by simp) (by simp [Vec4.zero])
  refine ⟨⟨?_, htb⟩, hcb, ?_⟩
  · unfold tf2dAlphaAfter
    rw [List.range_succ, tf2dLoop_append]
    simp only [tf2dLoop]
    split
    · exact le_refl _
    · rw [tf2dStep_alpha]
      have ho := hop2 (env.vol (ray.origin + (ray.tmin + (j : ℚ) * step) • ray.direction))
        ((env.grad (ray.origin + (ray.tmin + (j : ℚ) * step) • ray.direction)).magnitude)
      nlinarith [htb.1, htb.2, ho.1, ho.2]
  · intro hs
    rw [compositeAlphaAfter_succ, compositeStep_a_of_safe env ray _ _ hs]
    have ho : 0 ≤ compositeOpacityAt env ray (ray.tmax - (j : ℚ) * step) ∧
        compositeOpacityAt env ray (ray.tmax - (j : ℚ) * step) ≤ 1 :=
      hop1 (sampleAt env ray (ray.tmax - (j : ℚ) * step))
    unfold compositeAlphaAfter
    nlinarith [hcb.1, hcb.2, ho.1, ho.2]

/-- C2 counterexample environment: shading enabled, gradient nonzero at
the first (back) sample position (1,0,0) and zero at the second (0,0,0),
constant 1D-TF opacity 1/2. -/
def envC2 : Env :=
  { envC1 with grad := fun p => if p.x = 1 then ⟨⟨1, 0, 0⟩, 1⟩ else ⟨Vec3.zero, 0⟩ }

/-- C2 counterexample: both per-sample opacities of the two-sample march
equal 1/2 ∈ [0, 1], yet the accumulated Composite-1D alpha falls from 1/2
after one step to 1/4 after two — the zero-gradient sample contributes
`vec4(0)` while its opacity keeps attenuating, so the claim's
monotonicity fails. -/
theorem C2_counterexample :
    (getTFValue envC2.cfg (sampleAt envC2 rayC3 1)).a = 1 / 2 ∧
    (getTFValue envC2.cfg (sampleAt envC2 rayC3 0)).a = 1 / 2 ∧
    compositeAlphaAfter envC2 rayC3 1 2 < compositeAlphaAfter envC2 rayC3 1 1 := by
  norm_num [compositeAlphaAfter, compositeStep, compositeOpacityAt, sampleAt, getTFValue,
    getTFIndex, envC2, envC1, rayC3, Vec3.zero, Vec4.zero, List.range_succ, List.range_zero]

/-- C2 witness environment: shading disabled, single-entry TF table with
opacity 1/2, TF-2D base alpha 0. -/
def envW2 : Env :=
  { envW10 with
    cfg := { cfgW6 with tfColorMap := [⟨1, 0, 0, 1 / 2⟩], TF2DColor := ⟨1, 1, 1, 0⟩ } }

/-- C2 witness: the theorem applied to `envW2` at march prefix 0. -/
theorem C2_witness :
    compositeAlphaAfter envW2 rayC1 1 0 ≤ compositeAlphaAfter envW2 rayC1 1 1 ∧
    0 ≤ tf2dAlphaAfter envW2 rayC1 1 0 ∧ tf2dAlphaAfter envW2 rayC1 1 0 ≤ 1 := by
  have hop2 : ∀ v g, 0 ≤ getTF2DOpacity envW2 v g ∧ getTF2DOpacity envW2 v g ≤ 1 := by
    intro v g
    simp only [getTF2DOpacity]
    have ha : envW2.cfg.TF2DColor.a = 0 := by norm_num [envW2, cfgW6]
    rw [ha]
    split_ifs <;> norm_num
  have hop1 : ∀ v, 0 ≤ (getTFValue envW2.cfg v).a ∧ (getTFValue envW2.cfg v).a ≤ 1 := by
    intro v
    have h : getTFIndex envW2.cfg v = 0 := by
      simp [getTFIndex, envW2, cfgW6]
    unfold getTFValue
    rw [h]
    norm_num [envW2, cfgW6]
  have h := C2_alpha_monotone_bounded envW2 rayC1 1 hop2 hop1 0
  exact ⟨h.2.2 (Or.inl rfl), h.1.2⟩

/-! ### Claim C8 -/

/-- At marching step 1 the hardcoded bracket `[t - 1, t]` coincides with
the claim's `[t - sampleStep, t]`, so the two marches agree. -/
lemma isoLoop_eq_isoLoopC8_of_step_one (env : Env) (ray : Ray) :
    ∀ L : List ℕ, isoLoop env ray 1 L = isoLoopC8 env ray 1 L := by
  intro L
  induction L with
  | nil => rfl
  | cons k ks ih =>
    simp only [isoLoop, isoLoopC8]
    rw [ih]

/-- C8 (amended): in `traceRayISO` with shading enabled, the first sample
with value ≥ the iso threshold is refined by bisection over the bracket
`[t - 1, t]` — the source hardcodes `1.0f`, not `sampleStep` — and a
sample exactly equal to the threshold uses t directly without bisection;
with the renderer's fixed `sampleStep = 1` (the only step `render()` ever
passes) this bracket is exactly the claim's previous-and-current step. -/
theorem C8_bisection_bracket (env : Env) (ray : Ray) :
    traceRayISO env ray 1 = traceRayISOSpecBracket env ray 1 := by
  unfold traceRayISO traceRayISOSpecBracket
  rw [isoLoop_eq_isoLoopC8_of_step_one]

/-- C8 counterexample environment: the field is 0 at x = 0, 2 at x = 2
and 1 in between, the iso threshold is 1, shading is on, and the Phong
stand-in returns the gradient direction so that different refined
positions yield different colors. -/
def envC8 : Env :=
  { vol := fun p => if p.x = 0 then 0 else if p.x = 2 then 2 else 1
    volMax := 2, volDims := ⟨3, 3, 3⟩
    grad := fun p => ⟨⟨p.x, 0, 0⟩, 0⟩, gradMaxMag := 1
    camPos := Vec3.zero, planeNormal := Vec3.zero
    phong := fun _ g _ _ => g.dir
    cfg := { cfgW6 with isoValue := 1, volumeShading := true } }

/-- Two-sample ray at step 2 for the C8 counterexample. -/
def rayC8 : Ray := { origin := Vec3.zero, direction := ⟨1, 0, 0⟩, tmin := 0, tmax := 2 }

/-- C8 counterexample: at `sampleStep = 2` the code bisects over the
hardcoded `[t - 1, t] = [1, 2]` (first midpoint 3/2) while the claim's
bracket `[t - sampleStep, t] = [0, 2]` has first midpoint 1, so the
refined positions and the shaded colors differ — the claim as stated is
false for steps other than 1. -/
theorem C8_counterexample : traceRayISO envC8 rayC8 2 ≠ traceRayISOSpecBracket envC8 rayC8 2 := by
  have hsample : ∀ t : ℚ, sampleAt envC8 rayC8 t = if t = 0 then 0 else if t = 2 then 2 else 1 := by
    intro t
    simp [sampleAt, envC8, rayC8, Vec3.zero]
  have hN : numSamples rayC8.tmin rayC8.tmax 2 = 2 := by
    norm_num [numSamples, rayC8]
  have hBcode : bisectLoop envC8 rayC8 1 10 1 2 (3 / 2) = 3 / 2 := by
    rw [show (10 : ℕ) = 9 + 1 from rfl, bisectLoop]
    norm_num [hsample]
  have hBspec : bisectLoop envC8 rayC8 1 10 0 2 1 = 1 := by
    rw [show (10 : ℕ) = 9 + 1 from rfl, bisectLoop]
    norm_num [hsample]
  have hiso : envC8.cfg.isoValue = 1 := rfl
  have hshade : envC8.cfg.volumeShading = true := rfl
  have htmin : rayC8.tmin = 0 := rfl
  have hgr : ∀ p, envC8.grad p = ⟨⟨p.x, 0, 0⟩, 0⟩ := fun _ => rfl
  have hph : ∀ c g l v, envC8.phong c g l v = g.dir := fun _ _ _ _ => rfl
  have hox : rayC8.origin.x = 0 := rfl
  have hoy : rayC8.origin.y = 0 := rfl
  have hoz : rayC8.origin.z = 0 := rfl
  have hdx : rayC8.direction.x = 1 := rfl
  have h1 : traceRayISO envC8 rayC8 2 = ⟨3 / 2, 0, 0, 1⟩ := by
    unfold traceRayISO
    rw [hN, show List.range 2 = [0, 1] from rfl]
    simp only [isoLoop, hiso, hshade, hsample, htmin]
    norm_num [bisectionAccuracy, hBcode, hgr, hph, hox, hoy, hoz, hdx]
  have h2 : traceRayISOSpecBracket envC8 rayC8 2 = ⟨1, 0, 0, 1⟩ := by
    unfold traceRayISOSpecBracket
    rw [hN, show List.range 2 = [0, 1] from rfl]
    simp only [isoLoopC8, hiso, hshade, hsample, htmin]
    norm_num [bisectionAccuracy, hBspec, hgr, hph, hox, hoy, hoz, hdx]
  rw [h1, h2]
  simp only [ne_eq, Vec4.mk.injEq]
  norm_num

/-! ### Claim C9 -/

/-- On a miss the per-pixel body leaves the framebuffer unchanged. -/
lemma renderStep_of_miss (env : Env) (genRay : ℚ → ℚ → Ray) (volumeCenter : Vec3)
    (bounds : Bounds) (w h : ℕ) (fb : ℕ → Vec4) (p : ℕ × ℕ)
    (hmiss : instersectRayVolumeBounds
      (genRay ((p.1 : ℚ) / (w : ℚ) * 2 - 1) ((p.2 : ℚ) / (h : ℚ) * 2 - 1)) bounds = none) :
    renderStep env genRay volumeCenter bounds w h fb p = fb := by
  show (match instersectRayVolumeBounds
      (genRay ((p.1 : ℚ) / (w : ℚ) * 2 - 1) ((p.2 : ℚ) / (h : ℚ) * 2 - 1)) bounds with
    | none => fb
    | some tt =>
      fun i => if i = p.2 * w + p.1
        then dispatchTracer env
          (setRaySegment (genRay ((p.1 : ℚ) / (w : ℚ) * 2 - 1) ((p.2 : ℚ) / (h : ℚ) * 2 - 1)) tt)
          volumeCenter 1
        else fb i) = fb
  rw [hmiss]

/-- On a hit the per-pixel body writes only the pixel's own row-major
slot. -/
lemma renderStep_of_hit (env : Env) (genRay : ℚ → ℚ → Ray) (volumeCenter : Vec3)
    (bounds : Bounds) (w h : ℕ) (fb : ℕ → Vec4) (p : ℕ × ℕ) (tt : ℚ × ℚ)
    (hhit : instersectRayVolumeBounds
      (genRay ((p.1 : ℚ) / (w : ℚ) * 2 - 1) ((p.2 : ℚ) / (h : ℚ) * 2 - 1)) bounds = some tt) :
    renderStep env genRay volumeCenter bounds w h fb p =
      fun i => if i = p.2 * w + p.1
        then dispatchTracer env
          (setRaySegment (genRay ((p.1 : ℚ) / (w : ℚ) * 2 - 1) ((p.2 : ℚ) / (h : ℚ) * 2 - 1)) tt)
          volumeCenter 1
        else fb i := by
  show (match instersectRayVolumeBounds
      (genRay ((p.1 : ℚ) / (w : ℚ) * 2 - 1) ((p.2 : ℚ) / (h : ℚ) * 2 - 1)) bounds with
    | none => fb
    | some tt =>
      fun i => if i = p.2 * w + p.1
        then dispatchTracer env
          (setRaySegment (genRay ((p.1 : ℚ) / (w : ℚ) * 2 - 1) ((p.2 : ℚ) / (h : ℚ) * 2 - 1)) tt)
          volumeCenter 1
        else fb i) = _
  rw [hhit]

/-- A framebuffer slot is untouched by the pixel loop as long as every
processed pixel either misses the volume (no write at all) or writes to a
different row-major index. -/
lemma renderFold_preserve (env : Env) (genRay : ℚ → ℚ → Ray) (volumeCenter : Vec3)
    (bounds : Bounds) (w h : ℕ) :
    ∀ (L : List (ℕ × ℕ)) (fb : ℕ → Vec4) (i : ℕ),
      (∀ p ∈ L,
        instersectRayVolumeBounds
          (genRay ((p.1 : ℚ) / (w : ℚ) * 2 - 1) ((p.2 : ℚ) / (h : ℚ) * 2 - 1)) bounds = none ∨
        p.2 * w + p.1 ≠ i) →
      (L.foldl (renderStep env genRay volumeCenter bounds w h) fb) i = fb i := by
  intro L
  induction L with
  | nil => intro fb i _; rfl
  | cons p ps ih =>
    intro fb i hall
    simp only [List.foldl_cons]
    rw [ih _ i (fun q hq => hall q (List.mem_cons_of_mem p hq))]
    rcases hall p (List.mem_cons_self p ps) with hmiss | hne
    · rw [renderStep_of_miss env genRay volumeCenter bounds w h fb p hmiss]
    · cases hcase : instersectRayVolumeBounds
          (genRay ((p.1 : ℚ) / (w : ℚ) * 2 - 1) ((p.2 : ℚ) / (h : ℚ) * 2 - 1)) bounds with
      | none => rw [renderStep_of_miss env genRay volumeCenter bounds w h fb p hcase]
      | some tt =>
        rw [renderStep_of_hit env genRay volumeCenter bounds w h fb p tt hcase]
        exact if_neg (fun hh => hne hh.symm)

/-- Membership in the pixel traversal list is exactly being inside the
configured resolution. -/
lemma mem_renderPixelList (w h : ℕ) (p : ℕ × ℕ) :
    p ∈ renderPixelList w h ↔ p.1 < w ∧ p.2 < h := by
  cases p with
  | mk a b => simp [renderPixelList, List.mem_flatMap, List.mem_map, List.mem_range, eq_comm]

/-- C9: after `render()`, a pixel inside the resolution whose generated
ray misses the volume bounding box holds exactly the cleared background
color (0,0,0,0): `resetImage` clears its slot and no tracer writes to it,
because row-major indices of distinct in-range pixels are distinct. -/
theorem C9_miss_pixel_background (env : Env) (genRay : ℚ → ℚ → Ray) (x y : ℕ)
    (hx : x < env.cfg.renderResolutionX) (hy : y < env.cfg.renderResolutionY)
    (hmiss : instersectRayVolumeBounds
      (genRay ((x : ℚ) / (env.cfg.renderResolutionX : ℚ) * 2 - 1)
        ((y : ℚ) / (env.cfg.renderResolutionY : ℚ) * 2 - 1))
      ⟨Vec3.zero, env.volDims - ⟨1, 1, 1⟩⟩ = none) :
    render env genRay (y * env.cfg.renderResolutionX + x) = Vec4.zero := by
  unfold render
  rw [renderFold_preserve]
  intro p hp
  by_cases hidx : p.2 * env.cfg.renderResolutionX + p.1 = y * env.cfg.renderResolutionX + x
  · left
    obtain ⟨a, b⟩ := p
    have hpw := (mem_renderPixelList env.cfg.renderResolutionX env.cfg.renderResolutionY ⟨a, b⟩).mp hp
    simp only at hpw hidx
    have ha : a = x := by
      have hm := congrArg (fun n => n % env.cfg.renderResolutionX) hidx
      simpa [Nat.mul_add_mod', Nat.mod_eq_of_lt hpw.1, Nat.mod_eq_of_lt hx] using hm
    have hw : 0 < env.cfg.renderResolutionX := lt_of_le_of_lt (Nat.zero_le x) hx
    have hb : b = y := by
      rw [ha] at hidx
      have hbw : b * env.cfg.renderResolutionX = y * env.cfg.renderResolutionX := by omega
      exact Nat.eq_of_mul_eq_mul_right hw hbw
    rw [ha, hb]
    exact hmiss
  · right
    exact hidx

/-- C9 witness environment: 2×2 resolution, 1×1×1 volume whose bounding
box collapses to the origin. -/
def envW9 : Env :=
  { envW10 with cfg := { cfgW6 with renderResolutionX := 2, renderResolutionY := 2 } }

/-- C9 witness camera: every pixel gets the same ray, which starts at
x = 5 and misses the collapsed box. -/
def genRayW9 : ℚ → ℚ → Ray :=
  fun _ _ => { origin := ⟨5, 0, 0⟩, direction := ⟨1, 1, 1⟩, tmin := 0, tmax := 0 }

/-- C9 witness: the theorem applied to pixel (1,1) of `envW9`, whose ray
misses; its framebuffer slot 1·2+1 = 3 stays (0,0,0,0). -/
theorem C9_witness : render envW9 genRayW9 3 = Vec4.zero := by
  have hmiss : ∀ A B : ℚ, instersectRayVolumeBounds (genRayW9 A B)
      ⟨Vec3.zero, envW9.volDims - ⟨1, 1, 1⟩⟩ = none := by
    intro A B
    norm_num [instersectRayVolumeBounds, genRayW9, envW9, envW10, slabEntry, slabExit, Vec3.zero]
  exact C9_miss_pixel_background envW9 genRayW9 1 1 (by norm_num [envW9, cfgW6])
    (by norm_num [envW9, cfgW6]) (hmiss _ _)
